import Mathlib

/-!  Formal model of m4binder (src/m4binder.py), an MP3-to-M4B audiobook
assembler.  Python strings are modelled as Lean `String` (or `List Char`
for character-level manipulation), Python dictionaries as structures with
`Option` fields (Python `None` = `none`), the filesystem as a
`Finset String` of existing paths, and the external collaborators
(ffprobe durations, ffmpeg exit status, mutagen tag reads, HTTP metadata
lookups) as oracle parameters supplied to each function. -/

namespace M4Binder

/-- Python truthiness of an optional string: `None` and `""` are falsy,
every other string is truthy. -/
def pyTruthy : Option String → Bool
  | none => false
  | some s => !(s == "")

/-- Python `a or b` on optional strings. -/
def pyOr (a b : Option String) : Option String :=
  if pyTruthy a then a else b

/-- Python `round` on a rational: round half to even (banker's rounding),
as `int(round(duration_sec * 1000))` does in `create_ffmetadata`. -/
def pyRound (q : ℚ) : ℤ :=
  if q - ⌊q⌋ = 1/2 then (if ⌊q⌋ % 2 = 0 then ⌊q⌋ else ⌊q⌋ + 1) else round q

/-- Lexicographic comparison of character lists by code point, as
Python compares strings. -/
def strLeB : List Char → List Char → Bool
  | [], _ => true
  | _ :: _, [] => false
  | c :: cs, d :: ds =>
    if c.toNat < d.toNat then true
    else if d.toNat < c.toNat then false
    else strLeB cs ds

/-- The order `sorted` uses on Python strings. -/
def pyStrLe (a b : String) : Prop := strLeB a.data b.data = true

instance : DecidableRel pyStrLe := fun a b =>
  inferInstanceAs (Decidable (strLeB a.data b.data = true))

/-- `sorted` on Python strings: a stable sort (modelled by insertion
sort, which is stable) by the code-point lexicographic order. -/
def pySorted (l : List String) : List String :=
  l.insertionSort pyStrLe

/-- `os.path.join(a, b)`: `b` if it is absolute (starts with a slash),
otherwise `a` glued to `b` with a single separator. -/
def pyJoin (a b : String) : String :=
  if b.data.head? = some '/' then b
  else if a = "" ∨ a.data.getLast? = some '/' then a ++ b
  else a ++ "/" ++ b

/-- `os.path.basename` on `List Char`: the part after the last slash. -/
def pyBasenameL (p : List Char) : List Char :=
  ((p.reverse.takeWhile (fun c => c ≠ '/')).reverse)

/-- `os.path.basename` on strings. -/
def pyBasename (p : String) : String :=
  String.mk (pyBasenameL p.toList)

/-- `os.path.splitext(name)[0]` on `List Char` for a path with no
directory part: split at the last dot, unless every character before
that dot is itself a dot (leading-dot files keep their name whole). -/
def splitextStemL (name : List Char) : List Char :=
  match name.reverse.findIdx? (fun c => c = '.') with
  | none => name
  | some j =>
    if (name.take (name.length - 1 - j)).all (fun c => c = '.') then name
    else name.take (name.length - 1 - j)

/-- `os.path.splitext(name)[0]` on strings. -/
def splitextStem (name : String) : String :=
  String.mk (splitextStemL name.toList)

/-- The extension filter of the discovery steps:
`f.lower().endswith(".mp3")` (lowercasing character by character, then a
suffix test). -/
def isMp3Name (f : String) : Bool :=
  (".mp3".toList).isSuffixOf (f.toList.map Char.toLower)

theorem pyRound_nonneg (q : ℚ) (h : 0 ≤ q) : 0 ≤ pyRound q := by
  unfold pyRound
  have hfl : (0 : ℤ) ≤ ⌊q⌋ := Int.le_floor.mpr (by exact_mod_cast h)
  split
  · split
    · exact hfl
    · omega
  · rw [round_eq]
    exact Int.le_floor.mpr (by push_cast; linarith)

/-! ## Chapter timeline builder (`create_ffmetadata`)

The chapter loop of `create_ffmetadata` (src/m4binder.py lines 130-155):
a running offset starts at 0; for the `idx`-th file (1-based) the probed
duration in seconds is rounded to milliseconds, the chapter spans
`[offset, offset + duration_ms]`, and the offset advances.  The probe
(`get_duration`, via ffprobe) and the tag reader (`EasyID3` title, with
`none` standing for both a missing tag and a failed read) are oracles. -/

/-- One emitted `[CHAPTER]` block: `START`, `END` (milliseconds) and
`title`. -/
structure Chapter where
  start_ms : ℤ
  end_ms : ℤ
  title : String
  deriving DecidableEq, Repr

/-- `int(round(get_duration(f) * 1000))`. -/
def durationMs (probe : String → ℚ) (f : String) : ℤ :=
  pyRound (probe f * 1000)

/-- The chapter title: the file's ID3 `title` tag, except that a missing
tag, a failed tag read (both `none`) or an empty tag value fall back to
`"Chapter {idx}"` (Python `if not mp3_title`). -/
def chapterTitle (tags : String → Option String) (f : String) (idx : ℕ) : String :=
  match tags f with
  | none => "Chapter " ++ toString idx
  | some t => if t = "" then "Chapter " ++ toString idx else t

/-- The chapter loop of `create_ffmetadata`, with the 1-based index and
the running start offset made explicit. -/
def chaptersFrom (probe : String → ℚ) (tags : String → Option String) :
    ℕ → ℤ → List String → List Chapter
  | _, _, [] => []
  | idx, cur, f :: rest =>
    { start_ms := cur
      end_ms := cur + durationMs probe f
      title := chapterTitle tags f idx }
      :: chaptersFrom probe tags (idx + 1) (cur + durationMs probe f) rest

/-- The chapter list emitted by `create_ffmetadata` for `files`
(index starts at 1, offset at 0). -/
def createChapters (probe : String → ℚ) (tags : String → Option String)
    (files : List String) : List Chapter :=
  chaptersFrom probe tags 1 0 files

/-- Sum of the rounded millisecond durations of `files`. -/
def sumMs (probe : String → ℚ) (files : List String) : ℤ :=
  (files.map (durationMs probe)).sum

/-- The serialized chapter section of the ffmetadata file: the five lines
appended per iteration of the loop. -/
def chapterLines (c : Chapter) : List String :=
  ["[CHAPTER]", "TIMEBASE=1/1000",
   "START=" ++ toString c.start_ms, "END=" ++ toString c.end_ms,
   "title=" ++ c.title]

theorem chaptersFrom_length (probe : String → ℚ) (tags : String → Option String) :
    ∀ (idx : ℕ) (cur : ℤ) (files : List String),
      (chaptersFrom probe tags idx cur files).length = files.length := by
  intro idx cur files
  induction files generalizing idx cur with
  | nil => rfl
  | cons f rest ih => simp [chaptersFrom, ih]

theorem sumMs_nil (probe : String → ℚ) : sumMs probe [] = 0 := rfl

theorem sumMs_cons (probe : String → ℚ) (f : String) (fs : List String) :
    sumMs probe (f :: fs) = durationMs probe f + sumMs probe fs := by
  simp [sumMs]

theorem chaptersFrom_get (probe : String → ℚ) (tags : String → Option String)
    (files : List String) :
    ∀ (idx : ℕ) (cur : ℤ) (j : ℕ) (h : j < files.length)
      (h' : j < (chaptersFrom probe tags idx cur files).length),
      (chaptersFrom probe tags idx cur files).get ⟨j, h'⟩ =
        { start_ms := cur + sumMs probe (files.take j)
          end_ms := cur + sumMs probe (files.take (j + 1))
          title := chapterTitle tags (files.get ⟨j, h⟩) (idx + j) } := by
  induction files with
  | nil => intro idx cur j h h'; exact absurd h (by simp)
  | cons f rest ih =>
    intro idx cur j h h'
    cases j with
    | zero =>
      simp [chaptersFrom, sumMs_cons, sumMs_nil]
    | succ k =>
      have hk : k < rest.length := by simpa using h
      have hk' : k < (chaptersFrom probe tags (idx + 1) (cur + durationMs probe f) rest).length := by
        rw [chaptersFrom_length]; exact hk
      have := ih (idx + 1) (cur + durationMs probe f) k hk hk'
      simp only [chaptersFrom, List.get_cons_succ]
      rw [this]
      simp [sumMs_cons]
      constructor
      · ring
      · constructor
        · ring
        · congr 1
          omega

theorem durationMs_nonneg (probe : String → ℚ) (f : String) (h : 0 ≤ probe f) :
    0 ≤ durationMs probe f :=
  pyRound_nonneg _ (mul_nonneg h (by norm_num))

theorem sumMs_nonneg (probe : String → ℚ) (l : List String)
    (h : ∀ f ∈ l, 0 ≤ probe f) : 0 ≤ sumMs probe l := by
  apply List.sum_nonneg
  intro x hx
  obtain ⟨f, hf, rfl⟩ := List.mem_map.mp hx
  exact durationMs_nonneg probe f (h f hf)

theorem sumMs_append (probe : String → ℚ) (a b : List String) :
    sumMs probe (a ++ b) = sumMs probe a + sumMs probe b := by
  simp [sumMs]

theorem sumMs_take_mono (probe : String → ℚ) (files : List String)
    (h : ∀ f ∈ files, 0 ≤ probe f) {i j : ℕ} (hij : i ≤ j) :
    sumMs probe (files.take i) ≤ sumMs probe (files.take j) := by
  have hsplit : files.take j = files.take i ++ (files.take j).drop i := by
    conv_lhs => rw [← List.take_append_drop i (files.take j)]
    rw [List.take_take, Nat.min_eq_left hij]
  rw [hsplit, sumMs_append]
  have : 0 ≤ sumMs probe ((files.take j).drop i) := by
    apply sumMs_nonneg
    intro f hf
    exact h f (List.take_subset j files (List.drop_subset i _ hf))
  linarith

/-- C1: for every list of input tracks with (nonnegative) probed
durations, `create_ffmetadata` emits exactly one chapter entry per track
in input order; the first entry starts at 0, each entry's end is its
start plus the rounded millisecond duration of its track, each entry's
start is the previous entry's end (equivalently the sum of the rounded
durations of all earlier tracks), the last entry's end is the sum of all
rounded durations, and the offsets are monotonically non-decreasing and
cover `[0, total_duration_ms]` with no gaps or overlaps. -/
theorem c1_chapter_timeline (probe : String → ℚ) (tags : String → Option String)
    (files : List String) (hpos : ∀ f ∈ files, 0 ≤ probe f) :
    (createChapters probe tags files).length = files.length ∧
    (∀ j (h : j < (createChapters probe tags files).length)
        (hf : j < files.length),
      ((createChapters probe tags files).get ⟨j, h⟩).start_ms
          = sumMs probe (files.take j) ∧
      ((createChapters probe tags files).get ⟨j, h⟩).end_ms
          = ((createChapters probe tags files).get ⟨j, h⟩).start_ms
              + durationMs probe (files.get ⟨j, hf⟩)) ∧
    (∀ h0 : 0 < (createChapters probe tags files).length,
      ((createChapters probe tags files).get ⟨0, h0⟩).start_ms = 0) ∧
    (∀ j (h1 : j + 1 < (createChapters probe tags files).length)
        (h0 : j < (createChapters probe tags files).length),
      ((createChapters probe tags files).get ⟨j + 1, h1⟩).start_ms
          = ((createChapters probe tags files).get ⟨j, h0⟩).end_ms) ∧
    (∀ hne : createChapters probe tags files ≠ [],
      ((createChapters probe tags files).getLast hne).end_ms
          = sumMs probe files) ∧
    (∀ j (h : j < (createChapters probe tags files).length),
      ((createChapters probe tags files).get ⟨j, h⟩).start_ms
          ≤ ((createChapters probe tags files).get ⟨j, h⟩).end_ms) ∧
    (∀ i j (hi : i < (createChapters probe tags files).length)
        (hj : j < (createChapters probe tags files).length), i ≤ j →
      ((createChapters probe tags files).get ⟨i, hi⟩).start_ms
          ≤ ((createChapters probe tags files).get ⟨j, hj⟩).start_ms) ∧
    (∀ j (h : j < (createChapters probe tags files).length),
      0 ≤ ((createChapters probe tags files).get ⟨j, h⟩).start_ms ∧
      ((createChapters probe tags files).get ⟨j, h⟩).end_ms
          ≤ sumMs probe files) := by
  have hlen : (createChapters probe tags files).length = files.length :=
    chaptersFrom_length probe tags 1 0 files
  have hget : ∀ j (h : j < files.length)
      (h' : j < (createChapters probe tags files).length),
      (createChapters probe tags files).get ⟨j, h'⟩ =
        { start_ms := sumMs probe (files.take j)
          end_ms := sumMs probe (files.take (j + 1))
          title := chapterTitle tags (files.get ⟨j, h⟩) (1 + j) } := by
    intro j h h'
    have := chaptersFrom_get probe tags files 1 0 j h h'
    simpa using this
  have hstep : ∀ j (h : j < files.length),
      sumMs probe (files.take (j + 1)) =
        sumMs probe (files.take j) + durationMs probe (files.get ⟨j, h⟩) := by
    intro j h
    have hj : j < (files.map (durationMs probe)).length := by simpa using h
    simp only [sumMs, List.map_take]
    rw [List.sum_take_succ _ j hj, List.getElem_map]
    simp [List.get_eq_getElem]
  refine ⟨hlen, ?_, ?_, ?_, ?_, ?_, ?_, ?_⟩
  · intro j h hf
    rw [hget j hf h, hstep j hf]
    exact ⟨rfl, rfl⟩
  · intro h0
    have hf : 0 < files.length := by omega
    rw [hget 0 hf h0]
    simp [sumMs_nil]
  · intro j h1 h0
    have hf1 : j + 1 < files.length := by omega
    have hf0 : j < files.length := by omega
    rw [hget (j + 1) hf1 h1, hget j hf0 h0]
  · intro hne
    have hlpos : 0 < (createChapters probe tags files).length :=
      List.length_pos.mpr hne
    have hfl : files.length - 1 < files.length := by omega
    rw [List.getLast_eq_get]
    have hcl : (createChapters probe tags files).length - 1
        < (createChapters probe tags files).length := by omega
    have heq : (createChapters probe tags files).length - 1 = files.length - 1 := by
      omega
    rw [show (⟨(createChapters probe tags files).length - 1, hcl⟩ :
          Fin (createChapters probe tags files).length)
        = ⟨files.length - 1, by omega⟩ from by simp [heq]]
    rw [hget (files.length - 1) hfl (by omega)]
    have : files.length - 1 + 1 = files.length := by omega
    rw [this, List.take_length]
  · intro j h
    have hf : j < files.length := by omega
    rw [hget j hf h]
    have : sumMs probe (files.take j) ≤ sumMs probe (files.take (j + 1)) :=
      sumMs_take_mono probe files hpos (by omega)
    simpa using this
  · intro i j hi hj hij
    have hfi : i < files.length := by omega
    have hfj : j < files.length := by omega
    rw [hget i hfi hi, hget j hfj hj]
    exact sumMs_take_mono probe files hpos hij
  · intro j h
    have hf : j < files.length := by omega
    rw [hget j hf h]
    constructor
    · have := sumMs_take_mono probe files hpos (Nat.zero_le j)
      simpa [sumMs_nil] using this
    · have := sumMs_take_mono probe files hpos (show j + 1 ≤ files.length by omega)
      simpa [List.take_length] using this

/-- The spec's end-to-end example durations: 61.2 s, 45.0 s, 90.5 s. -/
def probeEx : String → ℚ := fun f =>
  if f = "01.mp3" then 306/5 else if f = "02.mp3" then 45 else 181/2

/-- Three tracks in filename order. -/
def filesEx : List String := ["01.mp3", "02.mp3", "03.mp3"]

/-- Witness for C1: the timeline theorem applied at the spec's concrete
3-track example. -/
theorem c1_chapter_timeline_witness :
    (∀ f ∈ filesEx, 0 ≤ probeEx f) ∧
      (createChapters probeEx (fun _ => none) filesEx).length = filesEx.length := by
  have hpos : ∀ f ∈ filesEx, 0 ≤ probeEx f := by
    intro f hf
    simp only [filesEx, List.mem_cons, List.not_mem_nil, or_false] at hf
    rcases hf with rfl | rfl | rfl
    · simp only [probeEx, if_pos rfl]
      norm_num
    · simp only [probeEx]
      rw [if_neg (by decide)]
      norm_num
    · simp only [probeEx]
      rw [if_neg (by decide), if_neg (by decide)]
      norm_num
  exact ⟨hpos, (c1_chapter_timeline probeEx (fun _ => none) filesEx hpos).1⟩

/-- C8 counterexample: a track whose embedded title tag is present but
empty.  The claim says the entry carries the track's own tag (`""`) as
its title, but the code's `if not mp3_title` treats the empty string as
missing and emits `"Chapter 1"` instead. -/
theorem c8_chapter_title_cex :
    (createChapters (fun _ => 60) (fun _ => some "") ["01.mp3"]).map Chapter.title
        = ["Chapter 1"] ∧
      ("Chapter 1" : String) ≠ "" := by
  constructor
  · rfl
  · decide

/-- C8 (amended): each emitted chapter entry's title is the track's own
embedded title tag when that tag is present and non-empty; when the tag
is absent, the tag read fails, or the tag value is the empty string, the
title is `"Chapter {i}"` with `i` the track's 1-based position. -/
theorem c8_chapter_title (probe : String → ℚ) (tags : String → Option String)
    (files : List String) (j : ℕ) (h : j < files.length)
    (h' : j < (createChapters probe tags files).length) :
    ((createChapters probe tags files).get ⟨j, h'⟩).title
        = chapterTitle tags (files.get ⟨j, h⟩) (j + 1) ∧
    (∀ t, tags (files.get ⟨j, h⟩) = some t → t ≠ "" →
      chapterTitle tags (files.get ⟨j, h⟩) (j + 1) = t) ∧
    (tags (files.get ⟨j, h⟩) = none →
      chapterTitle tags (files.get ⟨j, h⟩) (j + 1)
        = "Chapter " ++ toString (j + 1)) ∧
    (tags (files.get ⟨j, h⟩) = some "" →
      chapterTitle tags (files.get ⟨j, h⟩) (j + 1)
        = "Chapter " ++ toString (j + 1)) := by
  refine ⟨?_, ?_, ?_, ?_⟩
  · have hg := chaptersFrom_get probe tags files 1 0 j h h'
    simp only [createChapters]
    rw [hg]
    simp [Nat.add_comm 1 j]
  · intro t ht hne
    simp only [List.get_eq_getElem] at ht
    simp [chapterTitle, ht, hne]
  · intro ht
    simp only [List.get_eq_getElem] at ht
    simp [chapterTitle, ht]
  · intro ht
    simp only [List.get_eq_getElem] at ht
    simp [chapterTitle, ht]

/-- Witness for C8 (amended) at a concrete two-track input with one
tagged and one untagged file. -/
theorem c8_chapter_title_witness :
    (1 < (["01.mp3", "02.mp3"] : List String).length) ∧
      ((createChapters (fun _ => 60)
          (fun f => if f = "02.mp3" then some "Epilogue" else none)
          ["01.mp3", "02.mp3"]).get ⟨1, by decide⟩).title
        = chapterTitle (fun f => if f = "02.mp3" then some "Epilogue" else none)
            "02.mp3" 2 :=
  ⟨by decide,
    (c8_chapter_title (fun _ => 60)
      (fun f => if f = "02.mp3" then some "Epilogue" else none)
      ["01.mp3", "02.mp3"] 1 (by decide) (by decide)).1⟩

/-! ## Concat list builder (`create_concat_list`)

`create_concat_list` writes one `file '<escaped>'` line per path, in
order, where the escaping is `path.replace("\\", "\\\\")` followed by
`.replace("'", "'\\''")`.  Since the first pass introduces no quotes and
the second touches no backslashes, the composite acts independently on
each character of the original path. -/

/-- Per-character effect of the two `replace` passes: a backslash
doubles, a single quote becomes quote-backslash-quote-quote, everything
else is unchanged. -/
def escChar (c : Char) : List Char :=
  if c = '\\' then ['\\', '\\']
  else if c = '\'' then ['\'', '\\', '\'', '\'']
  else [c]

/-- The escaping applied to a path by `create_concat_list`. -/
def escapePathL (p : List Char) : List Char :=
  p.foldr (fun c acc => escChar c ++ acc) []

/-- String form of the escaping. -/
def escapePath (s : String) : String :=
  String.mk (escapePathL s.toList)

/-- The manifest line written for one path (including the final
newline): `file '<escaped>'`. -/
def concatLineL (p : List Char) : List Char :=
  ['f', 'i', 'l', 'e', ' ', '\''] ++ (escapePathL p ++ ['\'', '\n'])

/-- The list of manifest lines `create_concat_list` writes, in input
order (the loop `for path in file_paths`). -/
def create_concat_list (file_paths : List String) : List String :=
  file_paths.map (fun p => String.mk (concatLineL p.toList))

/-- Decoder for the escape scheme: doubled backslash decodes to one
backslash, quote-backslash-quote-quote decodes to one quote, any other
leading quote or backslash is ill-formed, anything else is literal. -/
def unescapeL : List Char → Option (List Char)
  | [] => some []
  | c :: rest =>
    if c = '\\' then
      if rest.head? = some '\\' then
        (unescapeL rest.tail).map (fun r => '\\' :: r)
      else none
    else if c = '\'' then
      if rest.take 3 = ['\\', '\'', '\''] then
        (unescapeL (rest.drop 3)).map (fun r => '\'' :: r)
      else none
    else (unescapeL rest).map (fun r => c :: r)
termination_by l => l.length
decreasing_by
  all_goals simp [List.length_tail, List.length_drop]
  all_goals omega

/-- Recovering the original path from a manifest line: strip the 6
leading characters `file '` and the 2 trailing characters (closing quote
and newline), then decode the escaping. -/
def recoverLineL (l : List Char) : Option (List Char) :=
  unescapeL ((l.drop 6).take (l.length - 8))

theorem escapePathL_cons (c : Char) (p : List Char) :
    escapePathL (c :: p) = escChar c ++ escapePathL p := rfl

theorem unescapeL_nil : unescapeL [] = some [] := by
  rw [unescapeL]

theorem unescapeL_backslash (l : List Char) :
    unescapeL ('\\' :: '\\' :: l) = (unescapeL l).map (fun r => '\\' :: r) := by
  rw [unescapeL]
  simp

theorem unescapeL_quote (l : List Char) :
    unescapeL ('\'' :: '\\' :: '\'' :: '\'' :: l)
      = (unescapeL l).map (fun r => '\'' :: r) := by
  rw [unescapeL]
  simp

theorem unescapeL_other (c : Char) (l : List Char) (hb : c ≠ '\\')
    (hq : c ≠ '\'') :
    unescapeL (c :: l) = (unescapeL l).map (fun r => c :: r) := by
  rw [unescapeL]
  simp [hb, hq]

theorem unescapeL_escapePathL : ∀ p : List Char,
    unescapeL (escapePathL p) = some p
  | [] => unescapeL_nil
  | c :: p => by
    have ih := unescapeL_escapePathL p
    rw [escapePathL_cons]
    by_cases hb : c = '\\'
    · subst hb
      have he : escChar '\\' = ['\\', '\\'] := by decide
      rw [he]
      show unescapeL ('\\' :: '\\' :: escapePathL p) = _
      rw [unescapeL_backslash, ih]
      rfl
    · by_cases hq : c = '\''
      · subst hq
        have he : escChar '\'' = ['\'', '\\', '\'', '\''] := by decide
        rw [he]
        show unescapeL ('\'' :: '\\' :: '\'' :: '\'' :: escapePathL p) = _
        rw [unescapeL_quote, ih]
        rfl
      · have he : escChar c = [c] := by simp [escChar, hb, hq]
        rw [he]
        show unescapeL (c :: escapePathL p) = _
        rw [unescapeL_other c _ hb hq, ih]
        rfl

theorem escapePathL_injective : Function.Injective escapePathL := by
  intro p q h
  have hp := unescapeL_escapePathL p
  rw [h, unescapeL_escapePathL q] at hp
  simpa using hp.symm

theorem length_concatLineL (p : List Char) :
    (concatLineL p).length = (escapePathL p).length + 8 := by
  simp [concatLineL]

theorem recoverLineL_concatLineL (p : List Char) :
    recoverLineL (concatLineL p) = some p := by
  unfold recoverLineL
  rw [length_concatLineL]
  have h6 : (concatLineL p).drop 6 = escapePathL p ++ ['\'', '\n'] := by
    unfold concatLineL
    rw [show (6 : ℕ) = (['f', 'i', 'l', 'e', ' ', '\''] : List Char).length from rfl]
    exact List.drop_left _ _
  rw [h6]
  have ht : (escapePathL p ++ ['\'', '\n']).take (escapePathL p).length
      = escapePathL p := List.take_left _ _
  rw [show (escapePathL p).length + 8 - 8 = (escapePathL p).length from by omega, ht]
  exact unescapeL_escapePathL p

/-- C5: `create_concat_list` writes exactly one `file '<escaped-path>'`
line per input path, in the given input order, and the escaping of
backslashes and single quotes is lossless and reversible: distinct paths
have distinct escaped forms, and the original path is recovered from the
manifest line by stripping the fixed frame and decoding the escapes. -/
theorem c5_concat_list_lines (file_paths : List String) :
    (create_concat_list file_paths).length = file_paths.length ∧
    (∀ j (h : j < (create_concat_list file_paths).length)
        (h' : j < file_paths.length),
      (create_concat_list file_paths).get ⟨j, h⟩
        = String.mk (concatLineL (file_paths.get ⟨j, h'⟩).toList)) ∧
    (∀ p : List Char, unescapeL (escapePathL p) = some p) ∧
    (∀ p q : String, escapePath p = escapePath q → p = q) ∧
    (∀ p : List Char, recoverLineL (concatLineL p) = some p) := by
  refine ⟨by simp [create_concat_list], ?_, unescapeL_escapePathL, ?_,
    recoverLineL_concatLineL⟩
  · intro j h h'
    simp [create_concat_list]
  · intro p q hpq
    have hdata : escapePathL p.toList = escapePathL q.toList := by
      have := congrArg String.toList hpq
      simpa [escapePath] using this
    exact String.toList_inj.mp (escapePathL_injective hdata)

/-- Witness for C5: the line built for a Windows-style path containing
backslashes and a single quote decodes back to the original path. -/
theorem c5_concat_list_lines_witness :
    (0 < (create_concat_list [String.mk ['C', ':', '\\', 'a', '\'', 'b']]).length) ∧
      recoverLineL (concatLineL (['C', ':', '\\', 'a', '\'', 'b'] : List Char))
        = some ['C', ':', '\\', 'a', '\'', 'b'] := by
  refine ⟨by decide, ?_⟩
  have h := (c5_concat_list_lines [String.mk ['C', ':', '\\', 'a', '\'', 'b']]).2.2.2.2
  exact h ['C', ':', '\\', 'a', '\'', 'b']

/-! ## Parallel transcoder (`parallel_encode_mp3s_to_m4a`)

`parallel_encode_mp3s_to_m4a` lists the input folder, keeps names whose
lowercase form ends in `.mp3`, joins them onto the folder and sorts
them; each worker writes `output_folder/<stem>.m4a` where `<stem>` is
`os.path.splitext(os.path.basename(mp3))[0]`.  `as_completed` yields the
futures in a nondeterministic completion order; a successful future's
output path is appended to `results`, a failed one is logged and
skipped; the function returns `sorted(results)`.  We model per-track
success with an oracle `ok` and the completion order as an arbitrary
permutation of the submitted tracks. -/

/-- The discovery step: filter the folder listing by extension, join
each name onto the folder, and sort. -/
def discoverMp3s (input_folder : String) (listing : List String) : List String :=
  pySorted ((listing.filter isMp3Name).map (pyJoin input_folder))

/-- The intermediate output path the worker for `mp3` writes. -/
def encodeOutPath (output_folder mp3 : String) : String :=
  pyJoin output_folder (splitextStem (pyBasename mp3) ++ ".m4a")

/-- The list returned by `parallel_encode_mp3s_to_m4a`: the output paths
of the tracks whose transcode succeeded, collected in completion order
and finally sorted. -/
def parallelEncodeResult (output_folder : String) (ok : String → Bool)
    (completion : List String) : List String :=
  pySorted ((completion.filter ok).map (encodeOutPath output_folder))

theorem string_data_inj {a b : String} (h : a.data = b.data) : a = b := by
  cases a
  cases b
  exact congrArg String.mk h

theorem strLeB_total : ∀ a b : List Char, strLeB a b = true ∨ strLeB b a = true
  | [], _ => Or.inl rfl
  | _ :: _, [] => Or.inr rfl
  | c :: cs, d :: ds => by
    by_cases h1 : c.toNat < d.toNat
    · left
      simp [strLeB, h1]
    · by_cases h2 : d.toNat < c.toNat
      · right
        simp [strLeB, h2]
      · rcases strLeB_total cs ds with h | h
        · left
          simp [strLeB, h1, h2, h]
        · right
          simp [strLeB, h1, h2, h]

theorem strLeB_trans : ∀ a b c : List Char,
    strLeB a b = true → strLeB b c = true → strLeB a c = true
  | [], _, _ => by
    intro _ _
    rfl
  | _ :: _, [], _ => by
    intro h _
    simp [strLeB] at h
  | _ :: _, _ :: _, [] => by
    intro _ h
    simp [strLeB] at h
  | x :: xs, y :: ys, z :: zs => by
    intro h1 h2
    simp only [strLeB] at h1 h2 ⊢
    by_cases hxy : x.toNat < y.toNat
    · by_cases hyz : y.toNat < z.toNat
      · rw [if_pos (by omega)]
      · rw [if_neg hyz] at h2
        by_cases hzy : z.toNat < y.toNat
        · rw [if_pos hzy] at h2
          exact absurd h2 (by simp)
        · rw [if_pos (by omega)]
    · rw [if_neg hxy] at h1
      by_cases hyx : y.toNat < x.toNat
      · rw [if_pos hyx] at h1
        exact absurd h1 (by simp)
      · rw [if_neg hyx] at h1
        by_cases hyz : y.toNat < z.toNat
        · rw [if_pos (by omega)]
        · rw [if_neg hyz] at h2
          by_cases hzy : z.toNat < y.toNat
          · rw [if_pos hzy] at h2
            exact absurd h2 (by simp)
          · rw [if_neg hzy] at h2
            rw [if_neg (by omega), if_neg (by omega)]
            exact strLeB_trans xs ys zs h1 h2

theorem strLeB_antisymm : ∀ a b : List Char,
    strLeB a b = true → strLeB b a = true → a = b
  | [], [] => by
    intro _ _
    rfl
  | [], _ :: _ => by
    intro _ h
    simp [strLeB] at h
  | _ :: _, [] => by
    intro h _
    simp [strLeB] at h
  | x :: xs, y :: ys => by
    intro h1 h2
    simp only [strLeB] at h1 h2
    by_cases hxy : x.toNat < y.toNat
    · rw [if_neg (by omega), if_pos (by omega)] at h2
      exact absurd h2 (by simp)
    · rw [if_neg hxy] at h1
      by_cases hyx : y.toNat < x.toNat
      · rw [if_pos hyx] at h1
        exact absurd h1 (by simp)
      · rw [if_neg hyx] at h1
        rw [if_neg (by omega), if_neg (by omega)] at h2
        have hn : x.toNat = y.toNat := by omega
        have hc : x = y := Char.ext (UInt32.ext (by simpa [Char.toNat] using hn))
        rw [hc, strLeB_antisymm xs ys h1 h2]

instance : IsTotal String pyStrLe :=
  ⟨fun a b => strLeB_total a.data b.data⟩

instance : IsTrans String pyStrLe :=
  ⟨fun a b c => strLeB_trans a.data b.data c.data⟩

instance : IsAntisymm String pyStrLe :=
  ⟨fun a b h1 h2 => string_data_inj (strLeB_antisymm a.data b.data h1 h2)⟩

theorem pySorted_sorted (l : List String) : List.Sorted pyStrLe (pySorted l) :=
  List.sorted_insertionSort _ l

theorem pySorted_perm (l : List String) : (pySorted l).Perm l :=
  List.perm_insertionSort _ l

theorem pySorted_eq_of_perm {l₁ l₂ : List String} (h : l₁.Perm l₂) :
    pySorted l₁ = pySorted l₂ :=
  List.eq_of_perm_of_sorted
    ((pySorted_perm l₁).trans (h.trans (pySorted_perm l₂).symm))
    (pySorted_sorted l₁) (pySorted_sorted l₂)

/-- C2: for every input track set and every worker completion order,
`parallel_encode_mp3s_to_m4a` returns exactly the output paths of the
tracks whose transcode succeeded, sorted lexicographically; a failed
track is excluded without aborting the batch, so if exactly one of the
`N` tracks fails the caller receives the other `N - 1` outputs, and the
returned list does not depend on the completion order. -/
theorem c2_parallel_encode_result (output_folder : String) (ok : String → Bool)
    (mp3_files completion : List String) (hperm : completion.Perm mp3_files) :
    parallelEncodeResult output_folder ok completion
        = pySorted ((mp3_files.filter ok).map (encodeOutPath output_folder)) ∧
    List.Sorted pyStrLe (parallelEncodeResult output_folder ok completion) ∧
    (parallelEncodeResult output_folder ok completion).Perm
        ((mp3_files.filter ok).map (encodeOutPath output_folder)) ∧
    (∀ k ∈ mp3_files, mp3_files.Nodup →
      (∀ m ∈ mp3_files, ok m = decide (m ≠ k)) →
      (parallelEncodeResult output_folder ok completion).length
        = mp3_files.length - 1) := by
  have hpf : (completion.filter ok).Perm (mp3_files.filter ok) := hperm.filter ok
  have hpm : ((completion.filter ok).map (encodeOutPath output_folder)).Perm
      ((mp3_files.filter ok).map (encodeOutPath output_folder)) := hpf.map _
  refine ⟨pySorted_eq_of_perm hpm, pySorted_sorted _, ?_, ?_⟩
  · exact (pySorted_perm _).trans hpm
  · intro k hk hnd hok
    have hlen : (parallelEncodeResult output_folder ok completion).length
        = (mp3_files.filter ok).length := by
      unfold parallelEncodeResult
      rw [(pySorted_perm _).length_eq, List.length_map, hpf.length_eq]
    have hfeq : mp3_files.filter ok = mp3_files.filter (fun m => decide (m ≠ k)) :=
      List.filter_congr hok
    have herase : mp3_files.filter (fun m => m != k) = mp3_files.erase k :=
      (hnd.erase_eq_filter k).symm
    have hfeq2 : mp3_files.filter (fun m => decide (m ≠ k))
        = mp3_files.filter (fun m => m != k) := by
      apply List.filter_congr
      intro a _
      by_cases h : a = k <;> simp [h, bne]
    rw [hlen, hfeq, hfeq2, herase, List.length_erase_of_mem hk]

/-- Witness for C2: two tracks, the second one failing, completed in
reverse order. -/
theorem c2_parallel_encode_result_witness :
    (["in/b.mp3", "in/a.mp3"] : List String).Perm ["in/a.mp3", "in/b.mp3"] ∧
      parallelEncodeResult "out" (fun m => decide (m ≠ "in/b.mp3"))
          ["in/b.mp3", "in/a.mp3"]
        = pySorted (((["in/a.mp3", "in/b.mp3"] : List String).filter
            (fun m => decide (m ≠ "in/b.mp3"))).map (encodeOutPath "out")) := by
  have hperm : (["in/b.mp3", "in/a.mp3"] : List String).Perm
      ["in/a.mp3", "in/b.mp3"] := by decide
  exact ⟨hperm,
    (c2_parallel_encode_result "out" (fun m => decide (m ≠ "in/b.mp3"))
      ["in/a.mp3", "in/b.mp3"] ["in/b.mp3", "in/a.mp3"] hperm).1⟩

theorem pyBasenameL_no_slash (p : List Char) : '/' ∉ pyBasenameL p := by
  intro h
  unfold pyBasenameL at h
  rw [List.mem_reverse] at h
  have := List.mem_takeWhile_imp h
  simp at this

theorem splitextStemL_subset (name : List Char) :
    ∀ c ∈ splitextStemL name, c ∈ name := by
  intro c hc
  unfold splitextStemL at hc
  split at hc
  · exact hc
  · split at hc
    · exact hc
    · exact List.take_subset _ _ hc

theorem stem_no_slash (m : String) :
    '/' ∉ (splitextStem (pyBasename m)).data := by
  intro h
  have h1 : (splitextStem (pyBasename m)).data
      = splitextStemL (pyBasenameL m.toList) := rfl
  rw [h1] at h
  exact pyBasenameL_no_slash _ (splitextStemL_subset _ _ h)

theorem encodeOutPath_inj_on_stems (output_folder : String) {s t : String}
    (hs : '/' ∉ s.data) (ht : '/' ∉ t.data)
    (h : pyJoin output_folder (s ++ ".m4a") = pyJoin output_folder (t ++ ".m4a")) :
    s = t := by
  have hhead : ∀ u : String, '/' ∉ u.data →
      ¬ (u ++ ".m4a").data.head? = some '/' := by
    intro u hu
    rw [String.data_append]
    cases hul : u.data with
    | nil => simp
    | cons c cs =>
      have hc : c ≠ '/' := by
        intro hc
        apply hu
        rw [hul, hc]
        exact List.mem_cons_self _ _
      simp [hc]
  have hcancel : (s ++ ".m4a") = (t ++ ".m4a") → s = t := by
    intro he
    have hd := congrArg String.data he
    simp only [String.data_append] at hd
    exact string_data_inj (List.append_cancel_right hd)
  unfold pyJoin at h
  rw [if_neg (hhead s hs), if_neg (hhead t ht)] at h
  by_cases ha : output_folder = "" ∨ output_folder.data.getLast? = some '/'
  · rw [if_pos ha, if_pos ha] at h
    apply hcancel
    have hd := congrArg String.data h
    simp only [String.data_append] at hd
    exact string_data_inj (List.append_cancel_left hd)
  · rw [if_neg ha, if_neg ha] at h
    apply hcancel
    have hd := congrArg String.data h
    simp only [String.data_append] at hd
    exact string_data_inj (List.append_cancel_left hd)

/-- C9 counterexample: `"a.MP3"` and `"a.mp3"` are distinct filenames,
both pass the case-insensitive `.mp3` filter, and both are assigned the
same intermediate output path `out/a.m4a`, so two workers write to the
same file. -/
theorem c9_distinct_output_paths_cex :
    ("a.MP3" : String) ≠ "a.mp3" ∧
    (discoverMp3s "in" ["a.MP3", "a.mp3"]).map (encodeOutPath "out")
        = ["out/a.m4a", "out/a.m4a"] ∧
    ¬ ((discoverMp3s "in" ["a.MP3", "a.mp3"]).map (encodeOutPath "out")).Nodup := by
  refine ⟨by decide, by decide, by decide⟩

/-- C9 (amended): the intermediate output paths assigned by
`parallel_encode_mp3s_to_m4a` are pairwise distinct whenever the
discovered tracks' filename *stems* (basename minus the final
extension) are pairwise distinct; distinct full filenames alone do not
suffice, since two names differing only in the case of their `.mp3`
extension map to the same output path. -/
theorem c9_distinct_output_paths (input_folder output_folder : String)
    (listing : List String)
    (hstems : ((discoverMp3s input_folder listing).map
        (fun m => splitextStem (pyBasename m))).Nodup) :
    ((discoverMp3s input_folder listing).map
        (encodeOutPath output_folder)).Nodup := by
  have hmap : (discoverMp3s input_folder listing).map (encodeOutPath output_folder)
      = ((discoverMp3s input_folder listing).map
          (fun m => splitextStem (pyBasename m))).map
          (fun s => pyJoin output_folder (s ++ ".m4a")) := by
    rw [List.map_map]
    rfl
  rw [hmap]
  apply List.Nodup.map_on ?_ hstems
  intro x hx y hy hxy
  obtain ⟨mx, _, rfl⟩ := List.mem_map.mp hx
  obtain ⟨my, _, rfl⟩ := List.mem_map.mp hy
  exact encodeOutPath_inj_on_stems output_folder
    (stem_no_slash mx) (stem_no_slash my) hxy

/-- Witness for C9 (amended): two tracks with distinct stems get
distinct output paths. -/
theorem c9_distinct_output_paths_witness :
    ((discoverMp3s "in" ["a.mp3", "b.mp3"]).map
        (fun m => splitextStem (pyBasename m))).Nodup ∧
      ((discoverMp3s "in" ["a.mp3", "b.mp3"]).map (encodeOutPath "out")).Nodup :=
  ⟨by decide, c9_distinct_output_paths "in" "out" ["a.mp3", "b.mp3"] (by decide)⟩

/-! ## Assembly orchestrator (`convert_mp3_chapters_to_m4b`)

The filesystem is a `Finset String` of existing paths.  The orchestrator
encodes the intermediates, writes the chapter descriptor
(`input_folder/chapters.ffmetadata`) and the concat manifest
(`input_folder/concat_list.txt`), invokes the final merge, and in a
`finally` block removes the descriptor and manifest (guarded by
`os.path.exists`) and every intermediate `.m4a` (unguarded
`os.remove`).  The merge has three outcomes: exit 0, a non-zero exit
(`CalledProcessError`, caught and printed), or any other exception
(propagates after the `finally` block runs). -/

/-- Outcome of the final ffmpeg merge invocation. -/
inductive MergeOutcome
  | ok
  | fail
  | exc
  deriving DecidableEq

/-- `os.remove(p)` guarded by `if os.path.exists(p)`. -/
def removeIfExists (fs : Finset String) (p : String) : Finset String :=
  if p ∈ fs then fs.erase p else fs

/-- Unguarded `os.remove` of each file in turn; `none` models a
`FileNotFoundError` raised when a file is already missing. -/
def removeAll : Finset String → List String → Option (Finset String)
  | fs, [] => some fs
  | fs, p :: ps => if p ∈ fs then removeAll (fs.erase p) ps else none

/-- The `finally` block of `convert_mp3_chapters_to_m4b`. -/
def cleanupFS (fs : Finset String) (metadata_file list_file : String)
    (m4a_files : List String) : Option (Finset String) :=
  removeAll (removeIfExists (removeIfExists fs metadata_file) list_file) m4a_files

/-- Observable result of `convert_mp3_chapters_to_m4b`: the final
filesystem (`none` when the cleanup itself raised), whether the
`except CalledProcessError` branch printed an error, and whether an
uncaught exception leaves the function. -/
structure ConvertResult where
  fs : Option (Finset String)
  errorPrinted : Bool
  raised : Bool

/-- Filesystem-effect model of `convert_mp3_chapters_to_m4b`: the
parallel encode writes the intermediate files, `create_ffmetadata` and
`create_concat_list` write the two transient descriptors, the merge
writes the output only on success, and the `finally` cleanup always
runs. -/
def convert_mp3_chapters_to_m4b (fs0 : Finset String)
    (input_folder output_file : String) (m4a_files : List String)
    (outcome : MergeOutcome) : ConvertResult :=
  let metadata_file := pyJoin input_folder "chapters.ffmetadata"
  let list_file := pyJoin input_folder "concat_list.txt"
  let fs1 := m4a_files.foldl (fun s a => insert a s) fs0
  let fs2 := insert list_file (insert metadata_file fs1)
  let fs3 := if outcome = MergeOutcome.ok then insert output_file fs2 else fs2
  { fs := cleanupFS fs3 metadata_file list_file m4a_files
    errorPrinted := outcome = MergeOutcome.fail
    raised := outcome = MergeOutcome.exc }

theorem removeAll_spec : ∀ (ps : List String) (fs : Finset String),
    ps.Nodup → (∀ p ∈ ps, p ∈ fs) →
    ∃ fs', removeAll fs ps = some fs' ∧
      (∀ p ∈ ps, p ∉ fs') ∧
      (∀ x, x ∉ ps → (x ∈ fs' ↔ x ∈ fs)) := by
  intro ps
  induction ps with
  | nil =>
    intro fs _ _
    exact ⟨fs, rfl, by simp, by simp⟩
  | cons p ps ih =>
    intro fs hnd hmem
    have hp : p ∈ fs := hmem p (List.mem_cons_self _ _)
    have hnd' : ps.Nodup := (List.nodup_cons.mp hnd).2
    have hpnot : p ∉ ps := (List.nodup_cons.mp hnd).1
    have hmem' : ∀ q ∈ ps, q ∈ fs.erase p := by
      intro q hq
      apply Finset.mem_erase.mpr
      exact ⟨fun h => hpnot (h ▸ hq), hmem q (List.mem_cons_of_mem _ hq)⟩
    obtain ⟨fs', heq, hgone, hkeep⟩ := ih (fs.erase p) hnd' hmem'
    refine ⟨fs', ?_, ?_, ?_⟩
    · simp only [removeAll, if_pos hp]
      exact heq
    · intro q hq
      rcases List.mem_cons.mp hq with rfl | hq'
      · rw [hkeep q hpnot]
        simp
      · exact hgone q hq'
    · intro x hx
      have hx' : x ∉ ps := fun h => hx (List.mem_cons_of_mem _ h)
      have hxp : x ≠ p := fun h => hx (h ▸ List.mem_cons_self _ _)
      rw [hkeep x hx', Finset.mem_erase]
      exact ⟨fun h => h.2, fun h => ⟨hxp, h⟩⟩

theorem foldl_insert_mem (l : List String) (s : Finset String) (x : String) :
    x ∈ l.foldl (fun s a => insert a s) s ↔ x ∈ l ∨ x ∈ s := by
  induction l generalizing s with
  | nil => simp
  | cons a l ih =>
    simp only [List.foldl_cons, ih, Finset.mem_insert, List.mem_cons]
    tauto

theorem removeIfExists_mem (fs : Finset String) (p x : String) :
    x ∈ removeIfExists fs p ↔ x ∈ fs ∧ x ≠ p := by
  unfold removeIfExists
  split
  · rw [Finset.mem_erase]
    tauto
  · rename_i hp
    constructor
    · intro h
      refine ⟨h, ?_⟩
      rintro rfl
      exact hp h
    · exact fun h => h.1

theorem convert_fs_spec (fs0 : Finset String) (input_folder output_file : String)
    (m4a_files : List String) (outcome : MergeOutcome)
    (hnd : m4a_files.Nodup)
    (hm : pyJoin input_folder "chapters.ffmetadata" ∉ m4a_files)
    (hl : pyJoin input_folder "concat_list.txt" ∉ m4a_files) :
    ∃ fs', (convert_mp3_chapters_to_m4b fs0 input_folder output_file
        m4a_files outcome).fs = some fs' ∧
      pyJoin input_folder "chapters.ffmetadata" ∉ fs' ∧
      pyJoin input_folder "concat_list.txt" ∉ fs' ∧
      (∀ a ∈ m4a_files, a ∉ fs') ∧
      (∀ x, x ∉ m4a_files → x ≠ pyJoin input_folder "chapters.ffmetadata" →
        x ≠ pyJoin input_folder "concat_list.txt" → x ∈ fs0 → x ∈ fs') := by
  set metadata_file := pyJoin input_folder "chapters.ffmetadata" with hmf
  set list_file := pyJoin input_folder "concat_list.txt" with hlf
  have hfs3 : ∀ x : String, x ∈ m4a_files → x ∈
      (if outcome = MergeOutcome.ok
        then insert output_file (insert list_file (insert metadata_file
          (m4a_files.foldl (fun s a => insert a s) fs0)))
        else insert list_file (insert metadata_file
          (m4a_files.foldl (fun s a => insert a s) fs0))) := by
    intro x hx
    have : x ∈ m4a_files.foldl (fun s a => insert a s) fs0 :=
      (foldl_insert_mem _ _ _).mpr (Or.inl hx)
    split <;> simp [this]
  have hstep : ∀ a ∈ m4a_files,
      a ∈ removeIfExists (removeIfExists
        (if outcome = MergeOutcome.ok
          then insert output_file (insert list_file (insert metadata_file
            (m4a_files.foldl (fun s a => insert a s) fs0)))
          else insert list_file (insert metadata_file
            (m4a_files.foldl (fun s a => insert a s) fs0)))
        metadata_file) list_file := by
    intro a ha
    rw [removeIfExists_mem, removeIfExists_mem]
    refine ⟨⟨hfs3 a ha, ?_⟩, ?_⟩
    · rintro rfl
      exact hm ha
    · rintro rfl
      exact hl ha
  obtain ⟨fs', heq, hgone, hkeep⟩ := removeAll_spec m4a_files _ hnd hstep
  refine ⟨fs', heq, ?_, ?_, hgone, ?_⟩
  · rw [hkeep _ hm, removeIfExists_mem, removeIfExists_mem]
    by_cases h : metadata_file = list_file
    · rw [h]
      tauto
    · intro hcontra
      exact hcontra.1.2 rfl
  · rw [hkeep _ hl, removeIfExists_mem]
    intro hcontra
    exact hcontra.2 rfl
  · intro x hxa hxm hxl hx0
    rw [hkeep _ hxa, removeIfExists_mem, removeIfExists_mem]
    refine ⟨⟨?_, hxm⟩, hxl⟩
    have : x ∈ m4a_files.foldl (fun s a => insert a s) fs0 :=
      (foldl_insert_mem _ _ _).mpr (Or.inr hx0)
    split <;> simp [this]

/-- C3: on every exit path of `convert_mp3_chapters_to_m4b` — merge
success, merge failure with a non-zero exit, or a thrown exception — the
chapter descriptor, the concat manifest, and every intermediate
per-track transcoded file are deleted before the function returns, while
a resolver-obtained cover file (distinct from those transients) present
before the call is never deleted. -/
theorem c3_cleanup_on_all_paths (fs0 : Finset String)
    (input_folder output_file cover : String) (m4a_files : List String)
    (outcome : MergeOutcome)
    (hnd : m4a_files.Nodup)
    (hm : pyJoin input_folder "chapters.ffmetadata" ∉ m4a_files)
    (hl : pyJoin input_folder "concat_list.txt" ∉ m4a_files)
    (hcm : cover ≠ pyJoin input_folder "chapters.ffmetadata")
    (hcl : cover ≠ pyJoin input_folder "concat_list.txt")
    (hca : cover ∉ m4a_files) (hc0 : cover ∈ fs0) :
    ∃ fs', (convert_mp3_chapters_to_m4b fs0 input_folder output_file
        m4a_files outcome).fs = some fs' ∧
      pyJoin input_folder "chapters.ffmetadata" ∉ fs' ∧
      pyJoin input_folder "concat_list.txt" ∉ fs' ∧
      (∀ a ∈ m4a_files, a ∉ fs') ∧
      cover ∈ fs' := by
  obtain ⟨fs', heq, h1, h2, h3, h4⟩ :=
    convert_fs_spec fs0 input_folder output_file m4a_files outcome hnd hm hl
  exact ⟨fs', heq, h1, h2, h3, h4 cover hca hcm hcl hc0⟩

/-- Witness for C3: one intermediate file, a failing merge, and a cover
file that survives the cleanup. -/
theorem c3_cleanup_on_all_paths_witness :
    ((["in/a.m4a"] : List String).Nodup ∧
      pyJoin "in" "chapters.ffmetadata" ∉ (["in/a.m4a"] : List String) ∧
      pyJoin "in" "concat_list.txt" ∉ (["in/a.m4a"] : List String) ∧
      ("in/cover.jpg" : String) ≠ pyJoin "in" "chapters.ffmetadata" ∧
      ("in/cover.jpg" : String) ≠ pyJoin "in" "concat_list.txt" ∧
      ("in/cover.jpg" : String) ∉ (["in/a.m4a"] : List String) ∧
      ("in/cover.jpg" : String) ∈ ({"in/cover.jpg", "in/a.mp3"} : Finset String)) ∧
    ∃ fs', (convert_mp3_chapters_to_m4b {"in/cover.jpg", "in/a.mp3"} "in"
        "book.m4b" ["in/a.m4a"] MergeOutcome.fail).fs = some fs' ∧
      pyJoin "in" "chapters.ffmetadata" ∉ fs' ∧
      pyJoin "in" "concat_list.txt" ∉ fs' ∧
      (∀ a ∈ (["in/a.m4a"] : List String), a ∉ fs') ∧
      ("in/cover.jpg" : String) ∈ fs' :=
  ⟨⟨by decide, by decide, by decide, by decide, by decide, by decide, by decide⟩,
    c3_cleanup_on_all_paths {"in/cover.jpg", "in/a.mp3"} "in" "book.m4b"
      "in/cover.jpg" ["in/a.m4a"] MergeOutcome.fail (by decide) (by decide)
      (by decide) (by decide) (by decide) (by decide) (by decide)⟩

/-! ## CLI driver (`main`)

Single mode: exit 1 (`sys.exit(1)`) when the folder has no `.mp3`
files; otherwise `convert_mp3_chapters_to_m4b` runs, its merge failure
is caught inside the function, `main` returns normally and the process
exits 0.  An uncaught exception ends the interpreter with exit status 1.
Multiple mode: exit 1 when there are no subfolders; a subfolder without
`.mp3` files is skipped with a warning; each remaining subfolder is
converted in turn — a caught merge failure does not stop the loop, an
uncaught exception aborts the remaining subfolders. -/

/-- Process exit status of a single-mode run. -/
def mainSingleExitCode (listing : List String) (outcome : MergeOutcome) : ℕ :=
  if listing.filter isMp3Name = [] then 1
  else if outcome = MergeOutcome.exc then 1 else 0

/-- Batch loop over subfolders (name, listing): returns the names whose
conversion was invoked and the process exit status. -/
def processSubfolders (outcome : String → MergeOutcome) :
    List (String × List String) → List String × ℕ
  | [] => ([], 0)
  | (name, listing) :: rest =>
    if listing.filter isMp3Name = [] then processSubfolders outcome rest
    else if outcome name = MergeOutcome.exc then ([name], 1)
    else
      (name :: (processSubfolders outcome rest).1,
        (processSubfolders outcome rest).2)

/-- Multiple-mode run: exit 1 when no subfolders exist, otherwise the
batch loop. -/
def mainMultiple (subs : List (String × List String))
    (outcome : String → MergeOutcome) : List String × ℕ :=
  if subs = [] then ([], 1) else processSubfolders outcome subs

/-- C7 counterexample: a single-mode run whose merge exits non-zero
terminates with process exit status 0 — the claim's "process exits with
a non-success status" is false; individual merge failures are logged,
not propagated to the exit code. -/
theorem c7_merge_failure_exit_cex :
    (["01.mp3"] : List String).filter isMp3Name ≠ [] ∧
    mainSingleExitCode ["01.mp3"] MergeOutcome.fail = 0 ∧
    (0 : ℕ) ≠ 1 := by
  refine ⟨by decide, by decide, by decide⟩

/-- C7 (amended): when the final merge exits non-zero the failure is
reported (the `except` branch prints it), no exception escapes, cleanup
of the transient files still runs, and in batch mode the remaining
sibling books are still processed; however the process exits with status
0 — the failure is not propagated to the exit code. -/
theorem c7_merge_failure_handling (fs0 : Finset String)
    (input_folder output_file : String) (m4a_files : List String)
    (hnd : m4a_files.Nodup)
    (hm : pyJoin input_folder "chapters.ffmetadata" ∉ m4a_files)
    (hl : pyJoin input_folder "concat_list.txt" ∉ m4a_files) :
    (convert_mp3_chapters_to_m4b fs0 input_folder output_file m4a_files
        MergeOutcome.fail).errorPrinted = true ∧
    (convert_mp3_chapters_to_m4b fs0 input_folder output_file m4a_files
        MergeOutcome.fail).raised = false ∧
    (∃ fs', (convert_mp3_chapters_to_m4b fs0 input_folder output_file
        m4a_files MergeOutcome.fail).fs = some fs' ∧
      pyJoin input_folder "chapters.ffmetadata" ∉ fs' ∧
      pyJoin input_folder "concat_list.txt" ∉ fs' ∧
      ∀ a ∈ m4a_files, a ∉ fs') ∧
    (∀ listing : List String, listing.filter isMp3Name ≠ [] →
      mainSingleExitCode listing MergeOutcome.fail = 0) ∧
    (∀ (subs : List (String × List String)) (out : String → MergeOutcome),
      (∀ s ∈ subs, out s.1 ≠ MergeOutcome.exc) →
      (processSubfolders out subs).1
          = (subs.filter (fun s => !(s.2.filter isMp3Name).isEmpty)).map Prod.fst ∧
      (processSubfolders out subs).2 = 0) := by
  refine ⟨rfl, rfl, ?_, ?_, ?_⟩
  · obtain ⟨fs', heq, h1, h2, h3, _⟩ :=
      convert_fs_spec fs0 input_folder output_file m4a_files
        MergeOutcome.fail hnd hm hl
    exact ⟨fs', heq, h1, h2, h3⟩
  · intro listing hne
    simp [mainSingleExitCode, hne]
  · intro subs out hout
    induction subs with
    | nil => simp [processSubfolders]
    | cons s rest ih =>
      obtain ⟨name, listing⟩ := s
      have hout' : ∀ t ∈ rest, out t.1 ≠ MergeOutcome.exc := by
        intro t ht
        exact hout t (List.mem_cons_of_mem _ ht)
      have hname : out name ≠ MergeOutcome.exc :=
        hout ⟨name, listing⟩ (List.mem_cons_self _ _)
      obtain ⟨ih1, ih2⟩ := ih hout'
      by_cases hempty : listing.filter isMp3Name = []
      · have hb : (listing.filter isMp3Name).isEmpty = true := by
          rw [hempty]
          rfl
        have hstep : processSubfolders out ((name, listing) :: rest)
            = processSubfolders out rest := by
          simp only [processSubfolders, if_pos hempty]
        rw [hstep, ih1, ih2]
        exact ⟨by simp [List.filter_cons, hb], rfl⟩
      · have hb : (listing.filter isMp3Name).isEmpty = false := by
          cases hfe : listing.filter isMp3Name with
          | nil => exact absurd hfe hempty
          | cons a as => rfl
        have hstep : processSubfolders out ((name, listing) :: rest)
            = (name :: (processSubfolders out rest).1,
                (processSubfolders out rest).2) := by
          simp only [processSubfolders, if_neg hempty, if_neg hname]
        rw [hstep]
        refine ⟨?_, ih2⟩
        show name :: (processSubfolders out rest).1 = _
        rw [ih1]
        simp [List.filter_cons, hb]

/-- Witness for C7 (amended) at a concrete failing single-book run. -/
theorem c7_merge_failure_handling_witness :
    ((["in/a.m4a"] : List String).Nodup ∧
      pyJoin "in" "chapters.ffmetadata" ∉ (["in/a.m4a"] : List String) ∧
      pyJoin "in" "concat_list.txt" ∉ (["in/a.m4a"] : List String)) ∧
    (convert_mp3_chapters_to_m4b {"in/a.mp3"} "in" "book.m4b" ["in/a.m4a"]
        MergeOutcome.fail).errorPrinted = true :=
  ⟨⟨by decide, by decide, by decide⟩,
    (c7_merge_failure_handling {"in/a.mp3"} "in" "book.m4b" ["in/a.m4a"]
      (by decide) (by decide) (by decide)).1⟩

/-! ## Metadata resolver (`get_book_metadata`)

`get_book_metadata(args, mp3_files)` first computes default title/author
values (from the explicit arguments when both are truthy, otherwise
from the first file's ID3 `album`/`artist` tags, with `""` defaults when
the tag read raised), then dispatches on `args.metadata_source`; when
the chosen lookup yields `None` (service `none`, Google with no items,
openlibrary client not installed, or an empty search result) it builds
the fallback dict from the explicit/tag-derived values plus the embedded
cover art extracted from the first file.  The network and tag reads are
oracles: `id3 = none` models `extract_id3_tags` raising (returning `{}`),
`some (album, artist)` its dict (each value possibly Python `None`). -/

/-- `--metadata-source` selector. -/
inductive MetaSource
  | google
  | openlibrary
  | noSource
  deriving DecidableEq

/-- The CLI arguments the resolver consults. -/
structure Args where
  title : Option String
  author : Option String
  metadata_source : MetaSource

/-- A book-metadata dict.  `cover = none` models a dict with no
`'cover'` key (the Google path), `cover = some v` a dict whose `'cover'`
key holds `v` (`none` for Python `None`); likewise `publishedDate`. -/
structure BookMetaDict where
  title : Option String
  authors : List (Option String)
  publisher : Option String
  publishedDate : Option String
  cover : Option (Option String)
  deriving DecidableEq, Repr

/-- `volumeInfo` of the first Google Books item; each field may be
missing. -/
structure GoogleVolumeInfo where
  title : Option String
  authors : List String
  publisher : Option String
  publishedDate : Option String

/-- An Open Library search result: title, author names, optional
publisher attribute, and the first cover id when any. -/
structure OLWork where
  title : String
  authors : List String
  publisher : Option String
  coverId : Option ℕ

/-- `fetch_metadata_google_books`: `None` when the API returned no
items; otherwise the first item's metadata with `""` defaults.  The
returned dict has no `'cover'` key. -/
def fetch_metadata_google_books (items : Option GoogleVolumeInfo) :
    Option BookMetaDict :=
  match items with
  | none => none
  | some vi => some
      { title := some (vi.title.getD "")
        authors := vi.authors.map some
        publisher := some (vi.publisher.getD "")
        publishedDate := some (vi.publishedDate.getD "")
        cover := none }

/-- `fetch_metadata_openlibrary`: `None` when the client library is not
installed or the search has no result; otherwise the work's metadata,
with the cover fetched to `{input_folder}/{cover_id}-cover.jpg` when the
work lists any cover id. -/
def fetch_metadata_openlibrary (olAvailable : Bool) (search : Option OLWork)
    (input_folder : String) : Option BookMetaDict :=
  if !olAvailable then none
  else
    match search with
    | none => none
    | some w => some
        { title := some w.title
          authors := w.authors.map some
          publisher := some (w.publisher.getD "")
          publishedDate := none
          cover := some (w.coverId.map
            (fun cid => input_folder ++ "/" ++ toString cid ++ "-cover.jpg")) }

/-- The `default_title`/`default_author` computation: when either
explicit value is falsy, read the first file's tags (`""` defaults when
the read raised, otherwise the dict values, possibly `None`); when both
are truthy, the explicit values themselves. -/
def extractedDefaults (args : Args)
    (id3 : Option (Option String × Option String)) :
    Option String × Option String :=
  if !pyTruthy args.title || !pyTruthy args.author then
    match id3 with
    | none => (some "", some "")
    | some d => d
  else (args.title, args.author)

/-- The embedded-tag/explicit-input fallback dict. -/
def fallbackMeta (args : Args)
    (id3 : Option (Option String × Option String))
    (cover_art : Option String) : BookMetaDict :=
  { title := pyOr args.title (extractedDefaults args id3).1
    authors := [pyOr args.author (extractedDefaults args id3).2]
    publisher := some ""
    publishedDate := none
    cover := some cover_art }

/-- `get_book_metadata`, with the tag reader, the two lookup services
and the embedded-cover extractor as oracles. -/
def get_book_metadata (args : Args)
    (id3 : Option (Option String × Option String))
    (googleItems : Option GoogleVolumeInfo) (olAvailable : Bool)
    (olSearch : Option OLWork) (input_folder : String)
    (cover_art : Option String) : BookMetaDict :=
  match
    (match args.metadata_source with
      | MetaSource.google => fetch_metadata_google_books googleItems
      | MetaSource.openlibrary =>
          fetch_metadata_openlibrary olAvailable olSearch input_folder
      | MetaSource.noSource => none)
  with
  | some bm => bm
  | none => fallbackMeta args id3 cover_art

/-- On every fallback trigger (source `none`, Google without items, or
openlibrary unavailable / without results) the resolver returns exactly
the fallback dict. -/
theorem get_book_metadata_fallback (args : Args)
    (id3 : Option (Option String × Option String))
    (gi : Option GoogleVolumeInfo) (olA : Bool) (olS : Option OLWork)
    (input_folder : String) (cov : Option String)
    (htrigger : args.metadata_source = MetaSource.noSource ∨
      (args.metadata_source = MetaSource.google ∧ gi = none) ∨
      (args.metadata_source = MetaSource.openlibrary ∧
        (olA = false ∨ olS = none))) :
    get_book_metadata args id3 gi olA olS input_folder cov
      = fallbackMeta args id3 cov := by
  rcases htrigger with h | ⟨h, hgi⟩ | ⟨h, holS⟩
  · simp [get_book_metadata, h]
  · simp [get_book_metadata, h, hgi, fetch_metadata_google_books]
  · rcases holS with hA | hS
    · simp [get_book_metadata, h, hA, fetch_metadata_openlibrary]
    · subst hS
      cases olA <;>
        simp [get_book_metadata, h, fetch_metadata_openlibrary]

/-- C6: whenever the metadata source is `none`, or the configured lookup
returns no results or is unavailable, `get_book_metadata` returns
exactly the embedded-tag/explicit-input fallback — publisher `""`,
cover the embedded cover (or absent), title the explicit title when
given else the first track's album tag, authors the singleton of the
explicit author when given else the artist tag — never a partial mix;
in particular `source=none` with explicit title "Dune" and author
"Frank Herbert" yields exactly that fallback dict. -/
theorem c6_metadata_fallback (args : Args)
    (id3 : Option (Option String × Option String))
    (gi : Option GoogleVolumeInfo) (olA : Bool) (olS : Option OLWork)
    (input_folder : String) (cov : Option String)
    (htrigger : args.metadata_source = MetaSource.noSource ∨
      (args.metadata_source = MetaSource.google ∧ gi = none) ∨
      (args.metadata_source = MetaSource.openlibrary ∧
        (olA = false ∨ olS = none))) :
    get_book_metadata args id3 gi olA olS input_folder cov
        = fallbackMeta args id3 cov ∧
    (fallbackMeta args id3 cov).publisher = some "" ∧
    (fallbackMeta args id3 cov).cover = some cov ∧
    (fallbackMeta args id3 cov).publishedDate = none ∧
    (pyTruthy args.title = true →
      (fallbackMeta args id3 cov).title = args.title) ∧
    (pyTruthy args.author = true →
      (fallbackMeta args id3 cov).authors = [args.author]) ∧
    (∀ alb art, id3 = some (alb, art) → pyTruthy args.title = false →
      (fallbackMeta args id3 cov).title = alb) ∧
    (∀ alb art, id3 = some (alb, art) → pyTruthy args.author = false →
      (fallbackMeta args id3 cov).authors = [art]) ∧
    (args.title = some "Dune" → args.author = some "Frank Herbert" →
      get_book_metadata args id3 gi olA olS input_folder cov =
        { title := some "Dune", authors := [some "Frank Herbert"],
          publisher := some "", publishedDate := none,
          cover := some cov }) := by
  have hfb := get_book_metadata_fallback args id3 gi olA olS input_folder cov
    htrigger
  refine ⟨hfb, rfl, rfl, rfl, ?_, ?_, ?_, ?_, ?_⟩
  · intro ht
    simp [fallbackMeta, pyOr, ht]
  · intro ha
    by_cases ht : pyTruthy args.title = true
    · simp [fallbackMeta, extractedDefaults, pyOr, ht, ha]
    · have ht' : pyTruthy args.title = false := by
        cases h : pyTruthy args.title
        · rfl
        · exact absurd h ht
      cases id3 with
      | none => simp [fallbackMeta, extractedDefaults, pyOr, ht', ha]
      | some d => simp [fallbackMeta, extractedDefaults, pyOr, ht', ha]
  · intro alb art hid ht
    subst hid
    simp [fallbackMeta, extractedDefaults, pyOr, ht]
  · intro alb art hid ha
    subst hid
    by_cases ht : pyTruthy args.title = true <;>
      simp [fallbackMeta, extractedDefaults, pyOr, ht, ha]
  · intro hT hA
    rw [hfb]
    have ht : pyTruthy args.title = true := by
      rw [hT]
      rfl
    have ha : pyTruthy args.author = true := by
      rw [hA]
      rfl
    have hdt : pyTruthy (some "Dune") = true := by decide
    have hdf : pyTruthy (some "Frank Herbert") = true := by decide
    simp [fallbackMeta, extractedDefaults, pyOr, ht, ha, hT, hA, hdt, hdf]

/-- Witness for C6: the spec's `source=none`, title "Dune", author
"Frank Herbert" example. -/
theorem c6_metadata_fallback_witness :
    ((MetaSource.noSource = MetaSource.noSource ∨
        (MetaSource.noSource = MetaSource.google ∧
          (none : Option GoogleVolumeInfo) = none) ∨
        (MetaSource.noSource = MetaSource.openlibrary ∧
          (false = false ∨ (none : Option OLWork) = none)))) ∧
    get_book_metadata ⟨some "Dune", some "Frank Herbert", MetaSource.noSource⟩
        (some (some "Old Album", some "Old Artist")) none false none "in"
        (some "in/01_cover.jpg") =
      { title := some "Dune", authors := [some "Frank Herbert"],
        publisher := some "", publishedDate := none,
        cover := some (some "in/01_cover.jpg") } :=
  ⟨Or.inl rfl,
    (c6_metadata_fallback ⟨some "Dune", some "Frank Herbert", MetaSource.noSource⟩
      (some (some "Old Album", some "Old Artist")) none false none "in"
      (some "in/01_cover.jpg") (Or.inl rfl)).2.2.2.2.2.2.2.2 rfl rfl⟩

/-- C10 counterexample: fallback path with no explicit author and a
readable tag dict whose `artist` value is `None`: the authors list is
`[None]`, not `[""]` as the claim's final tier asserts (the `""` default
only arises when the tag read itself fails). -/
theorem c10_fallback_authors_cex :
    (get_book_metadata ⟨none, none, MetaSource.noSource⟩
        (some (some "Album", none)) none false none "in" none).authors
      = [none] ∧
    ([(none : Option String)] : List (Option String)) ≠ [some ""] := by
  constructor
  · rfl
  · decide

/-- C10 (amended): on every fallback path the authors list has exactly
one element — the explicit author when truthy, else the first track's
`artist` tag value when the tags were readable (Python `None` when the
tag is absent), else `""` when the tag read failed — and is never the
empty list. -/
theorem c10_fallback_authors (args : Args)
    (id3 : Option (Option String × Option String))
    (gi : Option GoogleVolumeInfo) (olA : Bool) (olS : Option OLWork)
    (input_folder : String) (cov : Option String)
    (htrigger : args.metadata_source = MetaSource.noSource ∨
      (args.metadata_source = MetaSource.google ∧ gi = none) ∨
      (args.metadata_source = MetaSource.openlibrary ∧
        (olA = false ∨ olS = none))) :
    (get_book_metadata args id3 gi olA olS input_folder cov).authors.length
        = 1 ∧
    (pyTruthy args.author = true →
      (get_book_metadata args id3 gi olA olS input_folder cov).authors
        = [args.author]) ∧
    (pyTruthy args.author = false → ∀ alb art, id3 = some (alb, art) →
      (get_book_metadata args id3 gi olA olS input_folder cov).authors
        = [art]) ∧
    (pyTruthy args.author = false → id3 = none →
      (get_book_metadata args id3 gi olA olS input_folder cov).authors
        = [some ""]) ∧
    (get_book_metadata args id3 gi olA olS input_folder cov).authors ≠ [] := by
  have hfb := get_book_metadata_fallback args id3 gi olA olS input_folder cov
    htrigger
  rw [hfb]
  refine ⟨rfl, ?_, ?_, ?_, by simp [fallbackMeta]⟩
  · intro ha
    by_cases ht : pyTruthy args.title = true
    · simp [fallbackMeta, extractedDefaults, pyOr, ht, ha]
    · have ht' : pyTruthy args.title = false := by
        cases h : pyTruthy args.title
        · rfl
        · exact absurd h ht
      cases id3 with
      | none => simp [fallbackMeta, extractedDefaults, pyOr, ht', ha]
      | some d => simp [fallbackMeta, extractedDefaults, pyOr, ht', ha]
  · intro ha alb art hid
    subst hid
    simp [fallbackMeta, extractedDefaults, pyOr, ha]
  · intro ha hid
    subst hid
    simp [fallbackMeta, extractedDefaults, pyOr, ha]

/-- Witness for C10 (amended): singleton authors list on a concrete
fallback run. -/
theorem c10_fallback_authors_witness :
    ((MetaSource.noSource = MetaSource.noSource ∨
        (MetaSource.noSource = MetaSource.google ∧
          (none : Option GoogleVolumeInfo) = none) ∨
        (MetaSource.noSource = MetaSource.openlibrary ∧
          (false = false ∨ (none : Option OLWork) = none)))) ∧
    (get_book_metadata ⟨none, some "Frank Herbert", MetaSource.noSource⟩
        none none false none "in" none).authors.length = 1 :=
  ⟨Or.inl rfl,
    (c10_fallback_authors ⟨none, some "Frank Herbert", MetaSource.noSource⟩
      none none false none "in" none (Or.inl rfl)).1⟩

/-! ## Merge command construction (`convert_mp3_chapters_to_m4b`)

The ffmpeg invocation is assembled in five steps: the concat manifest
and the chapter descriptor as the first two inputs; the cover image as a
third input only when `book_metadata` is truthy, has a `'cover'` key
with a truthy value, and that file exists; the mapping options
(`-map_metadata 1`, `-map 0:a`, `-c copy`, `-movflags faststart`); the
cover attachment options only under the same condition; and finally the
output file. -/

/-- The guard `book_metadata and 'cover' in book_metadata and
book_metadata['cover'] and os.path.exists(book_metadata['cover'])`,
returning the cover path when it holds. -/
def coverArg (book_metadata : Option BookMetaDict) (existsF : String → Bool) :
    Option String :=
  match book_metadata with
  | none => none
  | some bm =>
    match bm.cover with
    | none => none
    | some none => none
    | some (some c) => if c = "" then none else if existsF c then some c else none

/-- The ffmpeg command list built by `convert_mp3_chapters_to_m4b`. -/
def buildMergeCmd (list_file metadata_file output_file : String)
    (book_metadata : Option BookMetaDict) (existsF : String → Bool) :
    List String :=
  ["ffmpeg", "-hide_banner", "-loglevel", "error", "-f", "concat",
    "-safe", "0", "-i", list_file, "-i", metadata_file]
  ++ (match coverArg book_metadata existsF with
      | some c => ["-i", c]
      | none => [])
  ++ ["-map_metadata", "1", "-map", "0:a", "-c", "copy",
      "-movflags", "faststart"]
  ++ (match coverArg book_metadata existsF with
      | some _ => ["-map", "2", "-c:v", "mjpeg",
          "-metadata:s:v", "title=\"Cover (front)\"",
          "-metadata:s:v", "comment=\"Cover (front)\"",
          "-disposition:v:0", "attached_pic"]
      | none => [])
  ++ [output_file]

/-- The option flags whose values the merge-command theorems inspect. -/
def flagLits : List String :=
  ["-i", "-map", "-map_metadata", "-c", "-c:v", "-movflags",
   "-metadata:s:v", "-disposition:v:0"]

/-- The values following each occurrence of `flag` in an argument list,
scanning left to right and consuming flag-value pairs. -/
def argsAfter (flag : String) : List String → List String
  | [] => []
  | [_] => []
  | f :: x :: rest =>
    if f = flag then x :: argsAfter flag rest
    else argsAfter flag (x :: rest)
termination_by l => l.length
decreasing_by
  all_goals simp
  all_goals omega

theorem argsAfter_nil (flag : String) : argsAfter flag [] = [] := by
  rw [argsAfter]

theorem argsAfter_one (flag x : String) : argsAfter flag [x] = [] := by
  rw [argsAfter]

theorem argsAfter_pos (flag x : String) (rest : List String) :
    argsAfter flag (flag :: x :: rest) = x :: argsAfter flag rest := by
  rw [argsAfter]
  simp

theorem argsAfter_neg (flag f x : String) (rest : List String) (h : f ≠ flag) :
    argsAfter flag (f :: x :: rest) = argsAfter flag (x :: rest) := by
  rw [argsAfter]
  simp [h]

/-- C4: the merge command has the concat manifest as input 0, the
chapter descriptor as input 1, and the cover as input 2 exactly when the
cover guard holds; it selects metadata from input 1 (`-map_metadata 1`)
and audio from input 0 (`-map 0:a`), copies codecs (`-c copy`), flags
streaming-friendly index placement (`-movflags faststart`), attaches the
cover as an `mjpeg` video stream with `attached_pic` disposition and
front-cover title/comment tags exactly when the guard holds, and ends
with the output file.  (The path arguments are assumed not to collide
with the option-flag literals.) -/
theorem c4_merge_command (list_file metadata_file output_file : String)
    (bm : Option BookMetaDict) (existsF : String → Bool)
    (hL : ∀ φ ∈ flagLits, list_file ≠ φ)
    (hM : ∀ φ ∈ flagLits, metadata_file ≠ φ)
    (hC : ∀ c, coverArg bm existsF = some c → ∀ φ ∈ flagLits, c ≠ φ) :
    argsAfter "-i" (buildMergeCmd list_file metadata_file output_file bm existsF)
        = [list_file, metadata_file] ++ (coverArg bm existsF).toList ∧
    argsAfter "-map_metadata"
        (buildMergeCmd list_file metadata_file output_file bm existsF) = ["1"] ∧
    (coverArg bm existsF = none →
      argsAfter "-map"
        (buildMergeCmd list_file metadata_file output_file bm existsF)
          = ["0:a"]) ∧
    (∀ c, coverArg bm existsF = some c →
      argsAfter "-map"
        (buildMergeCmd list_file metadata_file output_file bm existsF)
          = ["0:a", "2"]) ∧
    argsAfter "-c"
        (buildMergeCmd list_file metadata_file output_file bm existsF)
          = ["copy"] ∧
    argsAfter "-movflags"
        (buildMergeCmd list_file metadata_file output_file bm existsF)
          = ["faststart"] ∧
    (coverArg bm existsF = none →
      argsAfter "-c:v"
          (buildMergeCmd list_file metadata_file output_file bm existsF) = [] ∧
      argsAfter "-metadata:s:v"
          (buildMergeCmd list_file metadata_file output_file bm existsF) = [] ∧
      argsAfter "-disposition:v:0"
          (buildMergeCmd list_file metadata_file output_file bm existsF) = []) ∧
    (∀ c, coverArg bm existsF = some c →
      argsAfter "-c:v"
          (buildMergeCmd list_file metadata_file output_file bm existsF)
            = ["mjpeg"] ∧
      argsAfter "-metadata:s:v"
          (buildMergeCmd list_file metadata_file output_file bm existsF)
            = ["title=\"Cover (front)\"", "comment=\"Cover (front)\""] ∧
      argsAfter "-disposition:v:0"
          (buildMergeCmd list_file metadata_file output_file bm existsF)
            = ["attached_pic"]) ∧
    (buildMergeCmd list_file metadata_file output_file bm existsF).getLast?
        = some output_file ∧
    (coverArg bm existsF ≠ none ↔ ∃ bmv c, bm = some bmv ∧
      bmv.cover = some (some c) ∧ c ≠ "" ∧ existsF c = true) := by
  have hL1 := hL "-map" (by decide)
  have hL2 := hL "-map_metadata" (by decide)
  have hL3 := hL "-c" (by decide)
  have hL4 := hL "-c:v" (by decide)
  have hL5 := hL "-movflags" (by decide)
  have hL6 := hL "-metadata:s:v" (by decide)
  have hL7 := hL "-disposition:v:0" (by decide)
  have hM1 := hM "-map" (by decide)
  have hM2 := hM "-map_metadata" (by decide)
  have hM3 := hM "-c" (by decide)
  have hM4 := hM "-c:v" (by decide)
  have hM5 := hM "-movflags" (by decide)
  have hM6 := hM "-metadata:s:v" (by decide)
  have hM7 := hM "-disposition:v:0" (by decide)
  have hguard : coverArg bm existsF ≠ none ↔ ∃ bmv c, bm = some bmv ∧
      bmv.cover = some (some c) ∧ c ≠ "" ∧ existsF c = true := by
    constructor
    · intro hne
      rcases bm with _ | bmv
      · simp [coverArg] at hne
      · rcases hcv : bmv.cover with _ | cv
        · simp [coverArg, hcv] at hne
        · rcases cv with _ | c
          · simp [coverArg, hcv] at hne
          · by_cases hce : c = ""
            · simp [coverArg, hcv, hce] at hne
            · by_cases hex : existsF c = true
              · exact ⟨bmv, c, rfl, hcv, hce, hex⟩
              · have hex' : existsF c = false := by
                  cases hxx : existsF c
                  · rfl
                  · exact absurd hxx hex
                simp [coverArg, hcv, hce, hex'] at hne
    · rintro ⟨bmv, c, rfl, hcv, hce, hex⟩
      simp [coverArg, hcv, hce, hex]
  rcases hcov : coverArg bm existsF with _ | c
  · refine ⟨?_, ?_, ?_, ?_, ?_, ?_, ?_, ?_, ?_, ?_⟩
    · simp [buildMergeCmd, hcov, argsAfter_pos, argsAfter_neg, argsAfter_nil,
        argsAfter_one, hL1, hL2, hL3, hL4, hL5, hL6, hL7,
        hM1, hM2, hM3, hM4, hM5, hM6, hM7]
    · simp [buildMergeCmd, hcov, argsAfter_pos, argsAfter_neg, argsAfter_nil,
        argsAfter_one, hL1, hL2, hL3, hL4, hL5, hL6, hL7,
        hM1, hM2, hM3, hM4, hM5, hM6, hM7]
    · intro _
      simp [buildMergeCmd, hcov, argsAfter_pos, argsAfter_neg, argsAfter_nil,
        argsAfter_one, hL1, hL2, hL3, hL4, hL5, hL6, hL7,
        hM1, hM2, hM3, hM4, hM5, hM6, hM7]
    · intro c hc
      exact absurd hc (by simp)
    · simp [buildMergeCmd, hcov, argsAfter_pos, argsAfter_neg, argsAfter_nil,
        argsAfter_one, hL1, hL2, hL3, hL4, hL5, hL6, hL7,
        hM1, hM2, hM3, hM4, hM5, hM6, hM7]
    · simp [buildMergeCmd, hcov, argsAfter_pos, argsAfter_neg, argsAfter_nil,
        argsAfter_one, hL1, hL2, hL3, hL4, hL5, hL6, hL7,
        hM1, hM2, hM3, hM4, hM5, hM6, hM7]
    · intro _
      refine ⟨?_, ?_, ?_⟩ <;>
        simp [buildMergeCmd, hcov, argsAfter_pos, argsAfter_neg, argsAfter_nil,
          argsAfter_one, hL1, hL2, hL3, hL4, hL5, hL6, hL7,
          hM1, hM2, hM3, hM4, hM5, hM6, hM7]
    · intro c hc
      exact absurd hc (by simp)
    · rw [buildMergeCmd, hcov]
      exact List.getLast?_concat _
    · rw [hcov] at hguard
      exact hguard
  · have hC1 := hC c hcov "-map" (by decide)
    have hC2 := hC c hcov "-map_metadata" (by decide)
    have hC3 := hC c hcov "-c" (by decide)
    have hC4 := hC c hcov "-c:v" (by decide)
    have hC5 := hC c hcov "-movflags" (by decide)
    have hC6 := hC c hcov "-metadata:s:v" (by decide)
    have hC7 := hC c hcov "-disposition:v:0" (by decide)
    refine ⟨?_, ?_, ?_, ?_, ?_, ?_, ?_, ?_, ?_, ?_⟩
    · simp [buildMergeCmd, hcov, argsAfter_pos, argsAfter_neg, argsAfter_nil,
        argsAfter_one, hL1, hL2, hL3, hL4, hL5, hL6, hL7,
        hM1, hM2, hM3, hM4, hM5, hM6, hM7, hC1, hC2, hC3, hC4, hC5, hC6, hC7]
    · simp [buildMergeCmd, hcov, argsAfter_pos, argsAfter_neg, argsAfter_nil,
        argsAfter_one, hL1, hL2, hL3, hL4, hL5, hL6, hL7,
        hM1, hM2, hM3, hM4, hM5, hM6, hM7, hC1, hC2, hC3, hC4, hC5, hC6, hC7]
    · intro hnone
      exact absurd hnone (by simp)
    · intro c' hc'
      simp [buildMergeCmd, hcov, argsAfter_pos, argsAfter_neg, argsAfter_nil,
        argsAfter_one, hL1, hL2, hL3, hL4, hL5, hL6, hL7,
        hM1, hM2, hM3, hM4, hM5, hM6, hM7, hC1, hC2, hC3, hC4, hC5, hC6, hC7]
    · simp [buildMergeCmd, hcov, argsAfter_pos, argsAfter_neg, argsAfter_nil,
        argsAfter_one, hL1, hL2, hL3, hL4, hL5, hL6, hL7,
        hM1, hM2, hM3, hM4, hM5, hM6, hM7, hC1, hC2, hC3, hC4, hC5, hC6, hC7]
    · simp [buildMergeCmd, hcov, argsAfter_pos, argsAfter_neg, argsAfter_nil,
        argsAfter_one, hL1, hL2, hL3, hL4, hL5, hL6, hL7,
        hM1, hM2, hM3, hM4, hM5, hM6, hM7, hC1, hC2, hC3, hC4, hC5, hC6, hC7]
    · intro hnone
      exact absurd hnone (by simp)
    · intro c' hc'
      refine ⟨?_, ?_, ?_⟩ <;>
        simp [buildMergeCmd, hcov, argsAfter_pos, argsAfter_neg, argsAfter_nil,
          argsAfter_one, hL1, hL2, hL3, hL4, hL5, hL6, hL7,
          hM1, hM2, hM3, hM4, hM5, hM6, hM7, hC1, hC2, hC3, hC4, hC5, hC6, hC7]
    · rw [buildMergeCmd, hcov]
      exact List.getLast?_concat _
    · rw [hcov] at hguard
      exact hguard

/-- A concrete metadata dict with a cover, for the C4 witness. -/
def bmEx : BookMetaDict :=
  { title := some "Dune", authors := [some "Frank Herbert"],
    publisher := some "", publishedDate := none,
    cover := some (some "in/cover.jpg") }

/-- Witness for C4 at concrete paths with a present cover file. -/
theorem c4_merge_command_witness :
    (∀ φ ∈ flagLits, ("in/concat_list.txt" : String) ≠ φ) ∧
    argsAfter "-i" (buildMergeCmd "in/concat_list.txt"
        "in/chapters.ffmetadata" "book.m4b" (some bmEx) (fun _ => true))
      = ["in/concat_list.txt", "in/chapters.ffmetadata"]
          ++ (coverArg (some bmEx) (fun _ => true)).toList := by
  have hC : ∀ c, coverArg (some bmEx) (fun _ => true) = some c →
      ∀ φ ∈ flagLits, c ≠ φ := by
    intro c hc
    have hcv : c = "in/cover.jpg" := by
      simp [coverArg, bmEx] at hc
      exact hc.symm
    subst hcv
    decide
  exact ⟨by decide,
    (c4_merge_command "in/concat_list.txt" "in/chapters.ffmetadata" "book.m4b"
      (some bmEx) (fun _ => true) (by decide) (by decide) hC).1⟩

end M4Binder
